import Mathlib

/-!
Verification development for the podradio repository.

Shallow embedding of the core feed-to-playable-URL pipeline:
URL validation (PodcastFeed::cleanAndValidateUrl and the static
cleanAndValidateUrl helper in Player.cpp), audio-URL extraction and feed
parsing (PodcastFeed::extractAudioUrl / parseFeed), media URL resolution
(Player::resolveMediaUrl), subscription records (Subscription.hpp) and the
subscription manager (FeedManager.cpp).  Network responses and the XML
document tree are modelled as explicit input data; the external ada-url
parser is modelled by a simplified WHATWG-style parser covering the URL
shapes exercised here.
-/

namespace Podradio

/-! ## C++ string helpers -/

/-- Whitespace characters used by the C++ trimming code
(`find_first_not_of(" \t\n\r")`). -/
def wsChar (c : Char) : Bool :=
  c == ' ' || c == '\t' || c == '\n' || c == '\r'

/-- Model of the two `erase` calls in the C++ validators: strip leading and
trailing whitespace. -/
def cppTrim (s : String) : String :=
  ⟨((s.data.dropWhile wsChar).reverse.dropWhile wsChar).reverse⟩

/-- Decides whether the list `p` is an initial segment of `l` (model of
`std::string::find(p) == 0`). -/
def listHasPre : List Char → List Char → Bool
  | [], _ => true
  | _ :: _, [] => false
  | p :: ps, c :: cs => p == c && listHasPre ps cs

/-- Model of `s.find(p) == 0`. -/
def strStarts (s p : String) : Bool :=
  listHasPre p.data s.data

/-- Decides whether `sub` occurs somewhere in the list (helper for
`std::string::find(sub) != npos` and C `strstr`). -/
def listHasSub (sub : List Char) : List Char → Bool
  | [] => listHasPre sub []
  | c :: cs => listHasPre sub (c :: cs) || listHasSub sub cs

/-- Model of `s.find(sub) != std::string::npos` (and of `strstr`). -/
def hasSub (s sub : String) : Bool :=
  listHasSub sub.data s.data

/-! ## Model of the external ada-url parser

The source validates URLs with `ada::parse<ada::url>` and reads back
`get_protocol`, `get_pathname`, `get_search` and `get_href`.  ada is an
external library (not repository code); we model the WHATWG algorithm it
implements, simplified to `scheme://host[:port]/path?query#frag` handling:
scheme and host are lowercased, default ports are elided, an empty path of a
special scheme becomes "/", and inputs without a scheme fail to parse.
Percent-encoding normalization is not modelled; none of the inputs below
need it. -/

structure AdaUrl where
  scheme : String
  host : String
  port : String
  path : String
  query : String
  frag : String
  special : Bool
deriving DecidableEq

/-- Splits a list at the first occurrence of `ch`, dropping it. -/
def splitFirst (ch : Char) : List Char → Option (List Char × List Char)
  | [] => none
  | c :: cs =>
      if c == ch then some ([], cs)
      else (splitFirst ch cs).map (fun p => (c :: p.1, p.2))

/-- Valid URL scheme: a letter followed by letters, digits, `+`, `-`, `.`. -/
def schemeOkChars : List Char → Bool
  | [] => false
  | c :: cs =>
      c.isAlpha && cs.all (fun d => d.isAlpha || d.isDigit || d == '+' || d == '-' || d == '.')

/-- The WHATWG special schemes. -/
def specialSchemes : List String := ["http", "https", "ws", "wss", "ftp", "file"]

/-- Default port elision for the special schemes. -/
def isDefaultPort (scheme : String) (port : List Char) : Bool :=
  (scheme == "http" && port == [ '8', '0' ]) ||
  (scheme == "https" && port == [ '4', '4', '3' ]) ||
  (scheme == "ws" && port == [ '8', '0' ]) ||
  (scheme == "wss" && port == [ '4', '4', '3' ]) ||
  (scheme == "ftp" && port == [ '2', '1' ])

/-- Model of `ada::parse<ada::url>`: returns `none` exactly when the C++
parse fails. -/
def adaParse (s : String) : Option AdaUrl :=
  match splitFirst ':' s.data with
  | none => none
  | some (schemeRaw, rest) =>
    if schemeOkChars schemeRaw then
      let scheme : String := ⟨schemeRaw.map Char.toLower⟩
      if specialSchemes.contains scheme then
        let rest2 := rest.dropWhile (fun c => c == '/' || c == '\\')
        let auth := rest2.takeWhile (fun c => !(c == '/' || c == '?' || c == '#'))
        let pathRest := rest2.dropWhile (fun c => !(c == '/' || c == '?' || c == '#'))
        let hostPort : List Char × List Char :=
          match splitFirst ':' auth with
          | none => (auth, [])
          | some hp => hp
        if hostPort.1 = [] then none
        else
          let host : String := ⟨hostPort.1.map Char.toLower⟩
          let port : String :=
            if isDefaultPort scheme hostPort.2 then "" else ⟨hostPort.2⟩
          let pathPart := pathRest.takeWhile (fun c => !(c == '?' || c == '#'))
          let afterPath := pathRest.dropWhile (fun c => !(c == '?' || c == '#'))
          let path : String := if pathPart = [] then "/" else ⟨pathPart⟩
          let qf : List Char × List Char :=
            match afterPath with
            | '?' :: qs => ('?' :: qs.takeWhile (fun c => !(c == '#')), qs.dropWhile (fun c => !(c == '#')))
            | other => ([], other)
          some ⟨scheme, host, port, path, ⟨qf.1⟩, ⟨qf.2⟩, true⟩
      else
        some ⟨scheme, "", "", ⟨rest⟩, "", "", false⟩
    else none

/-- Model of `ada::url::get_protocol` (scheme plus a trailing colon). -/
def adaProtocol (u : AdaUrl) : String := u.scheme ++ ":"

/-- Model of `ada::url::get_href` (the serialized, normalized URL). -/
def adaHref (u : AdaUrl) : String :=
  if u.special then
    u.scheme ++ "://" ++ u.host ++ (if u.port = "" then "" else ":" ++ u.port)
      ++ u.path ++ u.query ++ u.frag
  else u.scheme ++ ":" ++ u.path

/-! ## The two URL validators of the source -/

namespace PodcastFeed

/-- Embeds `PodcastFeed::cleanAndValidateUrl` (src/src/core/PodcastFeed.cpp,
lines 18-78): trim, parse with ada, require an http or https protocol, and
return the parser's href.  The audio-extension / hosting-domain
classification computed afterwards only drives a log line and never changes
the returned value, so it is embedded separately below. -/
def cleanAndValidateUrl (url : String) : String :=
  if url = "" then ""
  else
    let cleaned := cppTrim url
    if cleaned = "" then ""
    else
      match adaParse cleaned with
      | none => ""
      | some u =>
        if adaProtocol u ≠ "http:" ∧ adaProtocol u ≠ "https:" then ""
        else adaHref u

/-- Audio extensions checked by the advisory classification (lines 50). -/
def audioExts : List String := [".mp3", ".m4a", ".wav", ".ogg", ".aac", ".mp4"]

/-- Known hosting domain substrings of the advisory classification. -/
def streamingPatterns : List String :=
  ["podtrac.com", "megaphone.fm", "libsyn.com", "soundcloud.com"]

/-- Embeds the advisory "is audio" classification of
`PodcastFeed::cleanAndValidateUrl` (lines 45-75); in the source its result
is only logged. -/
def isAudioUrl (u : AdaUrl) : Bool :=
  audioExts.any (fun ext => hasSub u.path ext || hasSub u.query ext) ||
  streamingPatterns.any (fun pat => hasSub (adaHref u) pat)

end PodcastFeed

namespace Player

/-- Embeds the static `cleanAndValidateUrl` helper of src/src/core/Player.cpp
(lines 16-44): trim, then accept exactly when the trimmed string starts with
the literal characters of http or https followed by the separator, returning
the trimmed string itself. -/
def cleanAndValidateUrl (url : String) : String :=
  if url = "" then ""
  else
    let cleaned := cppTrim url
    if cleaned = "" then ""
    else
      if strStarts cleaned "http://" = false ∧ strStarts cleaned "https://" = false then ""
      else cleaned

end Player

/-- Modelled from the spec: the URL Validator, on acceptance, returns "the
normalized absolute URL string (scheme + host + path + query)" produced by a
proper URL parser, with the fragment stripped.  Used only to compare the
source validators against the spec sentence of C6. -/
def specNormalizedUrl (s : String) : String :=
  match adaParse (cppTrim s) with
  | none => ""
  | some u =>
    if u.scheme = "http" ∨ u.scheme = "https" then
      u.scheme ++ "://" ++ u.host ++ (if u.port = "" then "" else ":" ++ u.port)
        ++ u.path ++ u.query
    else ""

/-! ## Canonical forms of the two validators (shared helper lemmas) -/

lemma cppTrim_empty : cppTrim "" = "" := rfl

lemma podcast_clean_eq (s : String) :
    PodcastFeed.cleanAndValidateUrl s =
      match adaParse (cppTrim s) with
      | none => ""
      | some u =>
        if adaProtocol u ≠ "http:" ∧ adaProtocol u ≠ "https:" then ""
        else adaHref u := by
  unfold PodcastFeed.cleanAndValidateUrl
  by_cases hs : s = ""
  · subst hs
    simp [cppTrim_empty]
    rfl
  · simp only [hs, if_false]
    by_cases ht : cppTrim s = ""
    · rw [ht]
      simp
      rfl
    · simp only [ht, if_false]

lemma player_clean_eq (s : String) :
    Player.cleanAndValidateUrl s =
      if cppTrim s = "" then ""
      else if strStarts (cppTrim s) "http://" = false ∧ strStarts (cppTrim s) "https://" = false
      then "" else cppTrim s := by
  unfold Player.cleanAndValidateUrl
  by_cases hs : s = ""
  · subst hs
    simp [cppTrim_empty]
  · simp only [hs, if_false]

/-! ## C5: scheme and trimming behavior of the URL validators -/

/-- C5: for every input string, both URL validators return Invalid (the
empty string) when the input is empty or whitespace-only after trimming, and
when the scheme is anything other than http or https (including no scheme at
all); a well-formed http(s) URL with surrounding whitespace is accepted with
the whitespace removed (the player validator returns the trimmed string, the
feed validator the parser's serialization of the trimmed string). -/
theorem c5_validator_trim_and_scheme (s : String) :
    (cppTrim s = "" →
      Player.cleanAndValidateUrl s = "" ∧ PodcastFeed.cleanAndValidateUrl s = "") ∧
    (strStarts (cppTrim s) "http://" = false ∧ strStarts (cppTrim s) "https://" = false →
      Player.cleanAndValidateUrl s = "") ∧
    (adaParse (cppTrim s) = none → PodcastFeed.cleanAndValidateUrl s = "") ∧
    (∀ u, adaParse (cppTrim s) = some u → adaProtocol u ≠ "http:" → adaProtocol u ≠ "https:" →
      PodcastFeed.cleanAndValidateUrl s = "") ∧
    (strStarts (cppTrim s) "http://" = true ∨ strStarts (cppTrim s) "https://" = true →
      Player.cleanAndValidateUrl s = cppTrim s) ∧
    (∀ u, adaParse (cppTrim s) = some u → adaProtocol u = "http:" ∨ adaProtocol u = "https:" →
      PodcastFeed.cleanAndValidateUrl s = adaHref u) := by
  refine ⟨?_, ?_, ?_, ?_, ?_, ?_⟩
  · intro h
    rw [player_clean_eq, podcast_clean_eq, h]
    have : adaParse "" = none := rfl
    simp [this]
  · intro h
    rw [player_clean_eq]
    by_cases ht : cppTrim s = "" <;> simp [ht, h]
  · intro h
    rw [podcast_clean_eq, h]
  · intro u hu h1 h2
    rw [podcast_clean_eq, hu]
    simp [h1, h2]
  · intro h
    rw [player_clean_eq]
    have ht : cppTrim s ≠ "" := by
      rcases h with h | h <;> intro he <;> rw [he] at h <;> exact absurd h (by decide)
    rcases h with h | h <;> simp [ht, h]
  · intro u hu h
    rw [podcast_clean_eq, hu]
    rcases h with h | h <;> simp [h]

/-- Witness for C5: the spec's own examples — an ftp URL is rejected by both
validators, a whitespace-only input is rejected, and an https URL with
surrounding whitespace is accepted with the whitespace removed. -/
theorem c5_validator_trim_and_scheme_witness :
    Player.cleanAndValidateUrl "ftp://x.com/a.mp3" = "" ∧
    PodcastFeed.cleanAndValidateUrl "ftp://x.com/a.mp3" = "" ∧
    Player.cleanAndValidateUrl "   " = "" ∧
    Player.cleanAndValidateUrl "  https://a.com/b.mp3  " = "https://a.com/b.mp3" ∧
    PodcastFeed.cleanAndValidateUrl "  https://a.com/b.mp3  " = "https://a.com/b.mp3" := by
  refine ⟨?_, ?_, ?_, ?_, ?_⟩
  · exact (c5_validator_trim_and_scheme _).2.1 (by decide)
  · exact (c5_validator_trim_and_scheme _).2.2.2.1
      ⟨"ftp", "x.com", "", "/a.mp3", "", "", true⟩ (by decide) (by decide) (by decide)
  · exact ((c5_validator_trim_and_scheme _).1 (by decide)).1
  · exact ((c5_validator_trim_and_scheme _).2.2.2.2.1 (Or.inr (by decide))).trans (by decide)
  · exact ((c5_validator_trim_and_scheme _).2.2.2.2.2
      ⟨"https", "a.com", "", "/b.mp3", "", "", true⟩ (by decide) (Or.inr (by decide))).trans
      (by decide)

/-! ## C6: normalization — the claim fails on the Player validator -/

/-- Counterexample to C6: the static validator in Player.cpp accepts
http://EXAMPLE.com/a.mp3 and returns it verbatim (substring prefix check on
the raw trimmed input), while the parser-produced normalized URL the claim
requires lowercases the host. -/
theorem c6_counterexample :
    Player.cleanAndValidateUrl "http://EXAMPLE.com/a.mp3" = "http://EXAMPLE.com/a.mp3" ∧
    specNormalizedUrl "http://EXAMPLE.com/a.mp3" = "http://example.com/a.mp3" ∧
    Player.cleanAndValidateUrl "http://EXAMPLE.com/a.mp3" ≠
      specNormalizedUrl "http://EXAMPLE.com/a.mp3" := by
  refine ⟨by decide, by decide, by decide⟩

/-- C6 amended: only the feed parser's validator returns the URL-parser
normalized serialization; the Player's validator returns the trimmed raw
input accepted by substring prefix checks, with no parser normalization. -/
theorem c6_amended_normalization (s : String) :
    (∀ u, adaParse (cppTrim s) = some u → PodcastFeed.cleanAndValidateUrl s ≠ "" →
      PodcastFeed.cleanAndValidateUrl s = adaHref u) ∧
    (PodcastFeed.cleanAndValidateUrl s ≠ "" → (adaParse (cppTrim s)).isSome = true) ∧
    (Player.cleanAndValidateUrl s ≠ "" → Player.cleanAndValidateUrl s = cppTrim s) := by
  refine ⟨?_, ?_, ?_⟩
  · intro u hu hne
    rw [podcast_clean_eq, hu]
    rw [podcast_clean_eq, hu] at hne
    by_cases h1 : adaProtocol u = "http:"
    · simp [h1]
    · by_cases h2 : adaProtocol u = "https:"
      · simp [h2]
      · simp [h1, h2] at hne
  · intro hne
    rw [podcast_clean_eq] at hne
    cases h : adaParse (cppTrim s) with
    | none => rw [h] at hne; simp at hne
    | some u => rfl
  · intro hne
    rw [player_clean_eq] at hne ⊢
    by_cases ht : cppTrim s = ""
    · simp [ht] at hne
    · simp only [ht, if_false] at hne ⊢
      by_cases hp : strStarts (cppTrim s) "http://" = false ∧ strStarts (cppTrim s) "https://" = false
      · simp [hp] at hne
      · simp [hp]

/-- Witness for the amended C6 theorem at concrete accepted inputs. -/
theorem c6_amended_normalization_witness :
    PodcastFeed.cleanAndValidateUrl "http://EXAMPLE.com/a.mp3" =
      adaHref ⟨"http", "example.com", "", "/a.mp3", "", "", true⟩ ∧
    Player.cleanAndValidateUrl "http://EXAMPLE.com/a.mp3" = cppTrim "http://EXAMPLE.com/a.mp3" := by
  refine ⟨?_, ?_⟩
  · exact (c6_amended_normalization _).1
      ⟨"http", "example.com", "", "/a.mp3", "", "", true⟩ (by decide) (by decide)
  · exact (c6_amended_normalization _).2.2 (by decide)

/-! ## Feed parsing (PodcastFeed::extractAudioUrl / parseFeed)

The pugixml document tree is modelled as explicit data: an item carries the
child elements the source reads (an `Option` is `none` when the child, or
its text node, is absent; attribute values default to the empty string as
`xml_attribute::value` does). -/

/-- An enclosure-style element: the `url` and `type` attributes read by the
source (`media:content` has the same shape). -/
structure RssEnclosure where
  url : String
  typ : String
deriving DecidableEq

/-- One `item` element, restricted to the children the source reads. -/
structure RssItem where
  title : Option String
  description : Option String
  pubDate : Option String
  duration : Option String
  guid : Option String
  enclosure : Option RssEnclosure
  mediaContent : Option RssEnclosure
  link : Option String
deriving DecidableEq

/-- One channel (or Atom feed) element. -/
structure RssChannel where
  title : Option String
  description : Option String
  link : Option String
  language : Option String
  items : List RssItem
deriving DecidableEq

/-- A fetched document as seen by `parseFeed`: whether `load_string`
succeeds, and the channel containers found by `doc.child`. -/
structure FeedDoc where
  wellFormed : Bool
  rssChannel : Option RssChannel
  atomFeed : Option RssChannel
deriving DecidableEq

/-- Channel-level metadata extracted by `parseFeed`. -/
structure FeedMetadata where
  title : String
  description : String
  link : String
  language : String
deriving DecidableEq

/-- One parsed episode (include/core/PodcastFeed.hpp `Episode`). -/
structure Episode where
  title : String
  description : String
  pubDate : String
  duration : String
  guid : String
  url : String
deriving DecidableEq

namespace PodcastFeed

/-- Tier 1 of `PodcastFeed::extractAudioUrl` (lines 138-153): an enclosure
whose declared type contains audio/ or application/octet-stream (C `strstr`)
and whose url attribute is non-empty, validated. -/
def tierEnclosure (item : RssItem) : String :=
  match item.enclosure with
  | none => ""
  | some enc =>
    if enc.url ≠ "" ∧ (hasSub enc.typ "audio/" = true ∨ hasSub enc.typ "application/octet-stream" = true)
    then cleanAndValidateUrl enc.url
    else ""

/-- Tier 2 (lines 155-168): a media:content element whose type contains
audio/, validated. -/
def tierMediaContent (item : RssItem) : String :=
  match item.mediaContent with
  | none => ""
  | some mc =>
    if mc.url ≠ "" ∧ hasSub mc.typ "audio/" = true
    then cleanAndValidateUrl mc.url
    else ""

/-- Audio extensions accepted by the tier-3 link filter (line 176; note the
list differs from `audioExts`: no .mp4). -/
def linkAudioExts : List String := [".mp3", ".m4a", ".wav", ".ogg", ".aac"]

/-- Tier 3 (lines 170-184): a link element, validated, used only when the
validated URL contains one of the known audio extensions. -/
def tierLink (item : RssItem) : String :=
  match item.link with
  | none => ""
  | some l =>
    let linkUrl := cleanAndValidateUrl l
    if linkUrl ≠ "" ∧ linkAudioExts.any (fun ext => hasSub linkUrl ext) = true
    then linkUrl
    else ""

/-- Tier 4 (lines 186-197): a guid element whose text starts with http,
validated. -/
def tierGuid (item : RssItem) : String :=
  match item.guid with
  | none => ""
  | some g =>
    if strStarts g "http" = true then cleanAndValidateUrl g else ""

/-- Embeds `PodcastFeed::extractAudioUrl` (lines 135-200): the four tiers
tried in order, each early-returning its validated URL when non-empty. -/
def extractAudioUrl (item : RssItem) : String :=
  let t1 := tierEnclosure item
  if t1 ≠ "" then t1
  else
    let t2 := tierMediaContent item
    if t2 ≠ "" then t2
    else
      let t3 := tierLink item
      if t3 ≠ "" then t3
      else tierGuid item

/-- Builds the `Episode` record the parsing loop pushes (lines 248-285). -/
def mkEpisode (item : RssItem) (audioUrl : String) : Episode :=
  ⟨item.title.getD "", item.description.getD "", item.pubDate.getD "",
   item.duration.getD "", item.guid.getD "", audioUrl⟩

/-- Embeds `PodcastFeed::parseFeed` (lines 202-292) as a function of the
modelled document: malformed markup and a missing channel throw; entries
without a valid audio URL are dropped; an empty episode set throws. -/
def parseFeed (doc : FeedDoc) : Except String (FeedMetadata × List Episode) :=
  if doc.wellFormed = false then .error "Failed to parse XML feed"
  else
    match doc.rssChannel.orElse (fun _ => doc.atomFeed) with
    | none => .error "Invalid podcast feed format: no channel or feed element found"
    | some ch =>
      let meta : FeedMetadata :=
        ⟨ch.title.getD "", ch.description.getD "", ch.link.getD "", ch.language.getD ""⟩
      let eps := ch.items.filterMap (fun item =>
        let audioUrl := extractAudioUrl item
        if audioUrl = "" then none else some (mkEpisode item audioUrl))
      if eps = [] then .error "No episodes with valid audio URLs found in feed"
      else .ok (meta, eps)

/-- Embeds `PodcastFeed::getLatestEpisode` (lines 294-300). -/
def getLatestEpisode (eps : List Episode) : Except String Episode :=
  match eps with
  | [] => .error "No episodes available"
  | e :: _ => .ok e

end PodcastFeed

/-- First element of the list that is non-empty, else the empty string
(the early-return shape of the tier cascade). -/
def firstNonEmpty : List String → String
  | [] => ""
  | s :: rest => if s ≠ "" then s else firstNonEmpty rest

/-! ## C1: parser results never contain an empty URL, and are non-empty -/

/-- C1: whenever `parseFeed` succeeds, the episode list is non-empty and no
episode carries an empty url; an entry with no extractable valid audio URL
is dropped, and a feed whose entries all fail extraction makes `parseFeed`
throw instead of returning an empty list. -/
theorem c1_parse_no_empty_urls (doc : FeedDoc) (meta : FeedMetadata) (eps : List Episode) :
    PodcastFeed.parseFeed doc = .ok (meta, eps) →
      eps ≠ [] ∧ ∀ e ∈ eps, e.url ≠ "" := by
  intro h
  unfold PodcastFeed.parseFeed at h
  by_cases hw : doc.wellFormed = false
  · simp [hw] at h
  · simp only [hw, if_false] at h
    cases hch : doc.rssChannel.orElse (fun _ => doc.atomFeed) with
    | none => rw [hch] at h; exact absurd h (by simp)
    | some ch =>
      rw [hch] at h
      simp only at h
      by_cases he : ch.items.filterMap (fun item =>
          let audioUrl := PodcastFeed.extractAudioUrl item
          if audioUrl = "" then none else some (PodcastFeed.mkEpisode item audioUrl)) = []
      · rw [if_pos he] at h
        exact absurd h (by simp)
      · rw [if_neg he] at h
        have heps : eps = ch.items.filterMap (fun item =>
            let audioUrl := PodcastFeed.extractAudioUrl item
            if audioUrl = "" then none else some (PodcastFeed.mkEpisode item audioUrl)) := by
          cases h
          rfl
        constructor
        · rw [heps]; exact he
        · intro e hmem
          rw [heps] at hmem
          rcases List.mem_filterMap.mp hmem with ⟨item, _, hsome⟩
          simp only at hsome
          by_cases hu : PodcastFeed.extractAudioUrl item = ""
          · rw [if_pos hu] at hsome; exact absurd hsome (by simp)
          · rw [if_neg hu] at hsome
            have : PodcastFeed.mkEpisode item (PodcastFeed.extractAudioUrl item) = e := by
              injection hsome
            rw [← this]
            exact hu

/-- A concrete feed document: one item with an audio enclosure, one item
with nothing extractable. -/
def demoItemGood : RssItem :=
  { title := some "ep one", description := none, pubDate := none, duration := none,
    guid := some "tag:pod,1", enclosure := some ⟨"http://example.com/one.mp3", "audio/mpeg"⟩,
    mediaContent := none, link := none }

/-- A concrete item with no extractable audio URL. -/
def demoItemBad : RssItem :=
  { title := some "ep two", description := none, pubDate := none, duration := none,
    guid := some "tag:pod,2", enclosure := none, mediaContent := none,
    link := some "https://example.com/episode-page" }

/-- A concrete well-formed document holding the two demo items. -/
def demoDoc : FeedDoc :=
  { wellFormed := true,
    rssChannel := some
      { title := some "demo", description := none, link := none, language := none,
        items := [demoItemGood, demoItemBad] },
    atomFeed := none }

/-- Metadata of the demo document as parsed. -/
def demoMeta : FeedMetadata := ⟨"demo", "", "", ""⟩

/-- Episode list of the demo document as parsed: the bad item is dropped. -/
def demoEps : List Episode :=
  [⟨"ep one", "", "", "", "tag:pod,1", "http://example.com/one.mp3"⟩]

/-- Witness for C1: the demo document parses to a non-empty list whose only
episode has a non-empty url. -/
theorem c1_parse_no_empty_urls_witness :
    demoEps ≠ [] ∧ Episode.url ⟨"ep one", "", "", "", "tag:pod,1", "http://example.com/one.mp3"⟩ ≠ "" := by
  have h := c1_parse_no_empty_urls demoDoc demoMeta demoEps (by rfl)
  exact ⟨h.1, h.2 _ (by decide)⟩

/-! ## C3: strict priority order of the extraction tiers -/

/-- C3: extraction tries the four tiers in strict priority order, stopping
at the first that yields a valid URL; in particular an item carrying an
enclosure with an audio type whose URL validates gets the enclosure URL,
regardless of any guid, media:content or link it also carries. -/
theorem c3_extraction_priority (item : RssItem) :
    PodcastFeed.extractAudioUrl item =
      firstNonEmpty [PodcastFeed.tierEnclosure item, PodcastFeed.tierMediaContent item,
        PodcastFeed.tierLink item, PodcastFeed.tierGuid item] ∧
    (∀ enc, item.enclosure = some enc → hasSub enc.typ "audio/" = true →
      PodcastFeed.cleanAndValidateUrl enc.url ≠ "" →
      PodcastFeed.extractAudioUrl item = PodcastFeed.cleanAndValidateUrl enc.url) := by
  constructor
  · unfold PodcastFeed.extractAudioUrl firstNonEmpty
    by_cases h1 : PodcastFeed.tierEnclosure item = "" <;>
      by_cases h2 : PodcastFeed.tierMediaContent item = "" <;>
        by_cases h3 : PodcastFeed.tierLink item = "" <;>
          by_cases h4 : PodcastFeed.tierGuid item = "" <;>
            simp [h1, h2, h3, h4, firstNonEmpty]
  · intro enc henc htyp hval
    have hurl : enc.url ≠ "" := by
      intro h0
      apply hval
      rw [h0]
      rfl
    have ht1 : PodcastFeed.tierEnclosure item = PodcastFeed.cleanAndValidateUrl enc.url := by
      unfold PodcastFeed.tierEnclosure
      rw [henc]
      simp [hurl, htyp]
    unfold PodcastFeed.extractAudioUrl
    rw [ht1]
    simp [hval]

/-- Witness for C3: an item carrying both an audio/mpeg enclosure and an
http guid gets the enclosure URL, not the guid URL. -/
theorem c3_extraction_priority_witness :
    PodcastFeed.extractAudioUrl
      { title := none, description := none, pubDate := none, duration := none,
        guid := some "http://example.com/page-guid",
        enclosure := some ⟨"http://example.com/audio-file.mp3", "audio/mpeg"⟩,
        mediaContent := none, link := none } = "http://example.com/audio-file.mp3" := by
  have h := (c3_extraction_priority
    { title := none, description := none, pubDate := none, duration := none,
      guid := some "http://example.com/page-guid",
      enclosure := some ⟨"http://example.com/audio-file.mp3", "audio/mpeg"⟩,
      mediaContent := none, link := none }).2
    ⟨"http://example.com/audio-file.mp3", "audio/mpeg"⟩ rfl (by decide) (by decide)
  exact h.trans (by decide)

/-! ## C4: the tier-3 audio-extension filter -/

/-- C4: a link whose validated URL lacks every known audio extension is
skipped by tier 3 even though it validates, and extraction continues to the
guid tier (stated with the earlier tiers yielding nothing, as in the claim). -/
theorem c4_link_requires_audio_ext (item : RssItem) (l : String) :
    item.link = some l →
    PodcastFeed.tierEnclosure item = "" →
    PodcastFeed.tierMediaContent item = "" →
    PodcastFeed.cleanAndValidateUrl l ≠ "" →
    PodcastFeed.linkAudioExts.any (fun ext => hasSub (PodcastFeed.cleanAndValidateUrl l) ext) = false →
    PodcastFeed.tierLink item = "" ∧
      PodcastFeed.extractAudioUrl item = PodcastFeed.tierGuid item := by
  intro hl h1 h2 _ hnoext
  have ht3 : PodcastFeed.tierLink item = "" := by
    unfold PodcastFeed.tierLink
    rw [hl]
    simp [hnoext]
  refine ⟨ht3, ?_⟩
  unfold PodcastFeed.extractAudioUrl
  simp [h1, h2, ht3]

/-- Witness for C4: a valid episode-page link without an audio extension is
skipped and the http guid is used instead. -/
theorem c4_link_requires_audio_ext_witness :
    PodcastFeed.extractAudioUrl
      { title := none, description := none, pubDate := none, duration := none,
        guid := some "http://example.com/real.mp3",
        enclosure := none, mediaContent := none,
        link := some "https://example.com/episode-page" } = "http://example.com/real.mp3" := by
  have h := (c4_link_requires_audio_ext
    { title := none, description := none, pubDate := none, duration := none,
      guid := some "http://example.com/real.mp3",
      enclosure := none, mediaContent := none,
      link := some "https://example.com/episode-page" }
    "https://example.com/episode-page" rfl (by decide) (by decide) (by decide) (by decide)).2
  exact h.trans (by decide)

/-! ## Media URL resolution (Player::resolveMediaUrl)

The cpr HTTP calls are modelled as an explicit environment holding the
response each request would produce.  cpr reports transport failures in the
response's error field rather than by throwing; the final fallback GET is
additionally wrapped in a catch that swallows exceptions, which the model
renders as an `Option` response. -/

/-- A cpr response: status code, post-redirect final URL, and the error
field (`errOk` models `error.code == cpr::ErrorCode::OK`). -/
structure HttpResponse where
  status : Int
  finalUrl : String
  errOk : Bool
  errMsg : String
deriving DecidableEq

/-- The responses the five escalation steps of `resolveMediaUrl` would
receive; `fallbackResp = none` models an exception during the fallback GET,
which the source swallows. -/
structure NetEnv where
  headResp : HttpResponse
  sslRetryResp : HttpResponse
  rangedGetResp : HttpResponse
  plainGetResp : HttpResponse
  fallbackResp : Option HttpResponse
deriving DecidableEq

namespace Player

/-- Embeds `Player::resolveMediaUrl` (src/src/core/Player.cpp, lines
47-201): validate, then HEAD, SSL-retry HEAD, ranged GET, range-less GET on
416, minimal fallback GET, and finally the cleaned input itself.  The one
`throw` is the invalid-URL check; every other path returns a URL. -/
def resolveMediaUrl (url : String) (net : NetEnv) : Except String String :=
  let cleaned := cleanAndValidateUrl url
  if cleaned = "" then .error "Invalid or empty URL provided"
  else
    let head := net.headResp
    if 200 ≤ head.status ∧ head.status < 300 then .ok head.finalUrl
    else
      let sslHit : Option String :=
        if head.errOk = false ∧ hasSub head.errMsg "SSL" = true then
          if 200 ≤ net.sslRetryResp.status ∧ net.sslRetryResp.status < 300 then
            some net.sslRetryResp.finalUrl
          else none
        else none
      match sslHit with
      | some u => .ok u
      | none =>
        let get := net.rangedGetResp
        if 200 ≤ get.status ∧ get.status < 300 then .ok get.finalUrl
        else
          let rangeless : Option String :=
            if get.status = 416 then
              if 200 ≤ net.plainGetResp.status ∧ net.plainGetResp.status < 300 then
                some net.plainGetResp.finalUrl
              else none
            else none
          match rangeless with
          | some u => .ok u
          | none =>
            let fb : Option String :=
              match net.fallbackResp with
              | some r => if 200 ≤ r.status ∧ r.status < 400 then some r.finalUrl else none
              | none => none
            match fb with
            | some u => .ok u
            | none => .ok cleaned

/-- Embeds the URL selection of `Player::play` (lines 251-261): the resolved
URL when resolution succeeds, else the raw input, which is then handed to
the playback engine. -/
def playMediaUrl (url : String) (net : NetEnv) : String :=
  match resolveMediaUrl url net with
  | .ok u => u
  | .error _ => url

end Player

/-- Every probe step of the resolver fails: no 2xx on HEAD, retry HEAD,
ranged GET or plain GET, and no sub-400 success on the fallback GET. -/
def netAllFail (net : NetEnv) : Prop :=
  ¬ (200 ≤ net.headResp.status ∧ net.headResp.status < 300) ∧
  ¬ (200 ≤ net.sslRetryResp.status ∧ net.sslRetryResp.status < 300) ∧
  ¬ (200 ≤ net.rangedGetResp.status ∧ net.rangedGetResp.status < 300) ∧
  ¬ (200 ≤ net.plainGetResp.status ∧ net.plainGetResp.status < 300) ∧
  (∀ r, net.fallbackResp = some r → ¬ (200 ≤ r.status ∧ r.status < 400))

/-! ## C2: the resolver never fails on a syntactically valid URL -/

/-- C2: for a URL the validator rejects, `resolveMediaUrl` throws its one
hard error; for any URL the validator accepts it returns a URL whatever the
network does, and when every escalation step fails it returns the cleaned
input unchanged. -/
theorem c2_resolver_never_fails (url : String) (net : NetEnv) :
    (Player.cleanAndValidateUrl url = "" →
      Player.resolveMediaUrl url net = .error "Invalid or empty URL provided") ∧
    (Player.cleanAndValidateUrl url ≠ "" →
      ∃ r, Player.resolveMediaUrl url net = .ok r) ∧
    (Player.cleanAndValidateUrl url ≠ "" → netAllFail net →
      Player.resolveMediaUrl url net = .ok (Player.cleanAndValidateUrl url)) := by
  refine ⟨?_, ?_, ?_⟩
  · intro h
    unfold Player.resolveMediaUrl
    simp [h]
  · intro h
    unfold Player.resolveMediaUrl
    simp only [h, if_false]
    by_cases h1 : 200 ≤ net.headResp.status ∧ net.headResp.status < 300
    · exact ⟨_, by rw [if_pos h1]⟩
    · rw [if_neg h1]
      cases hssl : (if net.headResp.errOk = false ∧ hasSub net.headResp.errMsg "SSL" = true then
          if 200 ≤ net.sslRetryResp.status ∧ net.sslRetryResp.status < 300 then
            some net.sslRetryResp.finalUrl
          else none
        else none) with
      | some u => exact ⟨u, rfl⟩
      | none =>
        by_cases h2 : 200 ≤ net.rangedGetResp.status ∧ net.rangedGetResp.status < 300
        · exact ⟨net.rangedGetResp.finalUrl, by simp only [if_pos h2]⟩
        · simp only [if_neg h2]
          cases hrl : (if net.rangedGetResp.status = 416 then
              if 200 ≤ net.plainGetResp.status ∧ net.plainGetResp.status < 300 then
                some net.plainGetResp.finalUrl
              else none
            else none) with
          | some u => exact ⟨u, rfl⟩
          | none =>
            cases hfb : (match net.fallbackResp with
                | some r => if 200 ≤ r.status ∧ r.status < 400 then some r.finalUrl else none
                | none => none) with
            | some u => exact ⟨u, rfl⟩
            | none => exact ⟨_, rfl⟩
  · intro h hfail
    obtain ⟨hf1, hf2, hf3, hf4, hf5⟩ := hfail
    unfold Player.resolveMediaUrl
    simp only [h, if_false, if_neg hf1, if_neg hf3]
    have hssl : (if net.headResp.errOk = false ∧ hasSub net.headResp.errMsg "SSL" = true then
        if 200 ≤ net.sslRetryResp.status ∧ net.sslRetryResp.status < 300 then
          some net.sslRetryResp.finalUrl
        else none
      else none) = none := by
      by_cases hc : net.headResp.errOk = false ∧ hasSub net.headResp.errMsg "SSL" = true
      · rw [if_pos hc, if_neg hf2]
      · rw [if_neg hc]
    have hrl : (if net.rangedGetResp.status = 416 then
        if 200 ≤ net.plainGetResp.status ∧ net.plainGetResp.status < 300 then
          some net.plainGetResp.finalUrl
        else none
      else none) = none := by
      by_cases hc : net.rangedGetResp.status = 416
      · rw [if_pos hc, if_neg hf4]
      · rw [if_neg hc]
    have hfb : (match net.fallbackResp with
        | some r => if 200 ≤ r.status ∧ r.status < 400 then some r.finalUrl else none
        | none => none) = none := by
      cases hr : net.fallbackResp with
      | none => rfl
      | some r => simp [if_neg (hf5 r hr)]
    rw [hssl, hrl, hfb]

/-- A concrete environment in which every step fails (404s everywhere and a
swallowed exception on the fallback GET). -/
def demoNetFail : NetEnv :=
  { headResp := ⟨405, "", true, ""⟩,
    sslRetryResp := ⟨405, "", true, ""⟩,
    rangedGetResp := ⟨403, "", true, ""⟩,
    plainGetResp := ⟨403, "", true, ""⟩,
    fallbackResp := none }

/-- Witness for C2: an invalid input throws, and a valid URL against the
all-failing environment comes back unchanged. -/
theorem c2_resolver_never_fails_witness :
    Player.resolveMediaUrl "not a url" demoNetFail = .error "Invalid or empty URL provided" ∧
    Player.resolveMediaUrl "https://a.com/b.mp3" demoNetFail = .ok "https://a.com/b.mp3" := by
  constructor
  · exact (c2_resolver_never_fails "not a url" demoNetFail).1 (by decide)
  · have hc : Player.cleanAndValidateUrl "https://a.com/b.mp3" = "https://a.com/b.mp3" := by
      decide
    have h := (c2_resolver_never_fails "https://a.com/b.mp3" demoNetFail).2.2 (by decide)
      ⟨by decide, by decide, by decide, by decide, fun r hr => by simp [demoNetFail] at hr⟩
    rw [hc] at h
    exact h

/-! ## C7: play falls back to the raw URL when resolution throws -/

/-- C7: when `resolveMediaUrl` throws, `Player::play` hands the raw input
URL to the playback engine instead of aborting. -/
theorem c7_play_falls_back_to_raw (url : String) (net : NetEnv) (e : String) :
    Player.resolveMediaUrl url net = .error e → Player.playMediaUrl url net = url := by
  intro h
  unfold Player.playMediaUrl
  rw [h]

/-- Witness for C7: an unresolvable input is handed over verbatim. -/
theorem c7_play_falls_back_to_raw_witness :
    Player.playMediaUrl "not a url" demoNetFail = "not a url" := by
  exact c7_play_falls_back_to_raw "not a url" demoNetFail "Invalid or empty URL provided" (by rfl)

/-! ## Subscriptions (include/core/Subscription.hpp) -/

/-- Model of the standard library's `std::hash<std::string>`: a fixed,
seedless byte hash (here FNV-1a 64), deterministic across calls and process
restarts, as the mainstream implementations are. -/
def stdHashString (s : String) : Nat :=
  s.data.foldl (fun h c => ((h ^^^ c.toNat) * 1099511628211) % (2 ^ 64)) 14695981039346656037

/-- A subscription record; `lastUpdatedSec` holds the timestamp in seconds
(the unit used by toJson via `duration_cast<seconds>`). -/
structure Subscription where
  id : String
  name : String
  feedUrl : String
  description : String
  lastUpdatedSec : Int
  enabled : Bool
deriving DecidableEq

namespace Subscription

/-- Embeds `Subscription::generateId` (Subscription.hpp lines 31-34). -/
def generateId (feedUrl : String) : String :=
  toString (stdHashString feedUrl)

/-- Embeds the three-argument `Subscription` constructor (lines 22-28); the
current time is an explicit argument. -/
def construct (name feedUrl description : String) (now : Int) : Subscription :=
  { id := generateId feedUrl, name := name, feedUrl := feedUrl,
    description := description, lastUpdatedSec := now, enabled := true }

end Subscription

/-- The JSON object written by `Subscription::toJson` (lines 37-46),
modelled field by field. -/
structure SubscriptionJson where
  id : String
  name : String
  feedUrl : String
  description : String
  lastUpdated : Int
  enabled : Bool
deriving DecidableEq

namespace Subscription

/-- Embeds `Subscription::toJson`. -/
def toJson (s : Subscription) : SubscriptionJson :=
  ⟨s.id, s.name, s.feedUrl, s.description, s.lastUpdatedSec, s.enabled⟩

/-- Embeds `Subscription::fromJson` (lines 49-62). -/
def fromJson (j : SubscriptionJson) : Subscription :=
  { id := j.id, name := j.name, feedUrl := j.feedUrl, description := j.description,
    lastUpdatedSec := j.lastUpdated, enabled := j.enabled }

end Subscription

/-! ## C8: round-trip and deterministic identifier -/

/-- C8: serialize-then-deserialize reproduces name, feedUrl, description,
enabled and id, and the identifier of a constructed subscription depends on
the feed URL alone, so equal URLs yield equal ids whatever the name,
description and construction time are. -/
theorem c8_subscription_roundtrip_and_id (s : Subscription)
    (n1 d1 : String) (t1 : Int) (n2 d2 : String) (t2 : Int) (u : String) :
    (Subscription.fromJson (Subscription.toJson s)).name = s.name ∧
    (Subscription.fromJson (Subscription.toJson s)).feedUrl = s.feedUrl ∧
    (Subscription.fromJson (Subscription.toJson s)).description = s.description ∧
    (Subscription.fromJson (Subscription.toJson s)).enabled = s.enabled ∧
    (Subscription.fromJson (Subscription.toJson s)).id = s.id ∧
    (Subscription.construct n1 u d1 t1).id = (Subscription.construct n2 u d2 t2).id ∧
    (Subscription.construct n1 u d1 t1).id = Subscription.generateId u :=
  ⟨rfl, rfl, rfl, rfl, rfl, rfl, rfl⟩

/-! ## FeedManager (src/src/core/FeedManager.cpp) -/

/-- The in-memory state of a FeedManager: the subscription list and the
current index, an `int` in C++ and therefore modelled as `Int`. -/
structure FMState where
  subs : List Subscription
  currentIndex : Int
deriving DecidableEq

namespace FeedManager

/-- Conversion of a C++ `int` value to a 64-bit `size_t`, as happens in the
mixed `int`/`size_t` arithmetic of nextPodcast and previousPodcast. -/
def toSizeT (i : Int) : Nat :=
  (i % (2 ^ 64)).toNat

/-- Embeds `FeedManager::findSubscriptionIndex` (lines 188-197): the first
subscription whose name, feedUrl or id equals the identifier. -/
def findSubscriptionIndex (identifier : String) : List Subscription → Option Nat
  | [] => none
  | sub :: rest =>
    if sub.name = identifier ∨ sub.feedUrl = identifier ∨ sub.id = identifier then some 0
    else (findSubscriptionIndex identifier rest).map (· + 1)

/-- Embeds `FeedManager::ensureValidIndex` (lines 199-207). -/
def ensureValidIndex (subs : List Subscription) (idx : Int) : Int :=
  if subs = [] then 0
  else if idx < 0 then 0
  else if (subs.length : Int) ≤ idx then (subs.length : Int) - 1
  else idx

/-- Embeds `FeedManager::addPodcast` (lines 19-44): reject empty name or
URL and duplicates, else append and, when the list just became a singleton,
point the current index at it. -/
def addPodcast (name feedUrl description : String) (now : Int) (s : FMState) :
    Bool × FMState :=
  if name = "" ∨ feedUrl = "" then (false, s)
  else if s.subs.any (fun sub => sub.feedUrl = feedUrl || sub.name = name) then (false, s)
  else
    let subs2 := s.subs ++ [Subscription.construct name feedUrl description now]
    let idx := if subs2.length = 1 then 0 else s.currentIndex
    (true, ⟨subs2, idx⟩)

/-- Embeds `FeedManager::removePodcast` (lines 46-67): erase the found
subscription and re-aim the current index, then clamp it. -/
def removePodcast (identifier : String) (s : FMState) : Bool × FMState :=
  match findSubscriptionIndex identifier s.subs with
  | none => (false, s)
  | some i =>
    let subs2 := s.subs.eraseIdx i
    let idx1 : Int :=
      if (subs2.length : Int) ≤ s.currentIndex then
        (if subs2 = [] then 0 else (subs2.length : Int) - 1)
      else if (i : Int) < s.currentIndex then s.currentIndex - 1
      else s.currentIndex
    (true, ⟨subs2, ensureValidIndex subs2 idx1⟩)

/-- Embeds `FeedManager::nextPodcast` (lines 80-88): modular increment in
the mixed `int`/`size_t` arithmetic of the source. -/
def nextPodcast (s : FMState) : Option Subscription × FMState :=
  if s.subs = [] then (none, s)
  else
    let n := s.subs.length
    let idx : Nat := toSizeT (s.currentIndex + 1) % n
    (s.subs[idx]?, ⟨s.subs, (idx : Int)⟩)

/-- Embeds `FeedManager::previousPodcast` (lines 90-98): the `int`
difference is converted to `size_t`, the length is added with 64-bit wrap,
and the result is reduced mod the length. -/
def previousPodcast (s : FMState) : Option Subscription × FMState :=
  if s.subs = [] then (none, s)
  else
    let n := s.subs.length
    let idx : Nat := ((toSizeT (s.currentIndex - 1) + n) % (2 ^ 64)) % n
    (s.subs[idx]?, ⟨s.subs, (idx : Int)⟩)

/-- Embeds `FeedManager::selectPodcast` (lines 100-109). -/
def selectPodcast (identifier : String) (s : FMState) : Bool × FMState :=
  match findSubscriptionIndex identifier s.subs with
  | none => (false, s)
  | some i => (true, ⟨s.subs, (i : Int)⟩)

end FeedManager

/-- The index invariant of C9: 0 when the list is empty, else within
[0, n-1]. -/
def FMState.indexInvariant (s : FMState) : Prop :=
  (s.subs = [] → s.currentIndex = 0) ∧
  (s.subs ≠ [] → 0 ≤ s.currentIndex ∧ s.currentIndex < (s.subs.length : Int))

/-- One FeedManager operation, as named by C9. -/
inductive FMOp where
  | add (name feedUrl description : String) (now : Int)
  | remove (identifier : String)
  | next
  | previous
  | select (identifier : String)
deriving DecidableEq

/-- Applies one operation to the manager state. -/
def FMState.applyOp (s : FMState) : FMOp → FMState
  | .add name feedUrl description now => (FeedManager.addPodcast name feedUrl description now s).2
  | .remove identifier => (FeedManager.removePodcast identifier s).2
  | .next => (FeedManager.nextPodcast s).2
  | .previous => (FeedManager.previousPodcast s).2
  | .select identifier => (FeedManager.selectPodcast identifier s).2

/-! ## C9: the current index stays in range -/

lemma ensureValidIndex_mem (subs : List Subscription) (idx : Int) :
    (subs = [] → FeedManager.ensureValidIndex subs idx = 0) ∧
    (subs ≠ [] → 0 ≤ FeedManager.ensureValidIndex subs idx ∧
      FeedManager.ensureValidIndex subs idx < (subs.length : Int)) := by
  constructor
  · intro h
    unfold FeedManager.ensureValidIndex
    rw [if_pos h]
  · intro h
    have hlen : 0 < (subs.length : Int) := by
      have : subs.length ≠ 0 := fun h0 => h (List.length_eq_zero.mp h0)
      omega
    unfold FeedManager.ensureValidIndex
    rw [if_neg h]
    by_cases h1 : idx < 0
    · rw [if_pos h1]; omega
    · rw [if_neg h1]
      by_cases h2 : (subs.length : Int) ≤ idx
      · rw [if_pos h2]; omega
      · rw [if_neg h2]; omega

lemma invariant_applyOp (s : FMState) (op : FMOp) :
    s.indexInvariant → (s.applyOp op).indexInvariant := by
  intro hinv
  obtain ⟨hempty, hfull⟩ := hinv
  cases op with
  | add name feedUrl description now =>
    show ((FeedManager.addPodcast name feedUrl description now s).2).indexInvariant
    unfold FeedManager.addPodcast
    by_cases h1 : name = "" ∨ feedUrl = ""
    · rw [if_pos h1]; exact ⟨hempty, hfull⟩
    · rw [if_neg h1]
      by_cases h2 : s.subs.any (fun sub => sub.feedUrl = feedUrl || sub.name = name) = true
      · rw [if_pos h2]; exact ⟨hempty, hfull⟩
      · rw [if_neg h2]
        simp only
        constructor
        · intro hcontra
          exact absurd hcontra (by simp)
        · intro _
          by_cases hone : (s.subs ++ [Subscription.construct name feedUrl description now]).length = 1
          · rw [if_pos hone, hone]
            norm_num
          · rw [if_neg hone]
            have hne : s.subs ≠ [] := by
              intro h0
              apply hone
              rw [h0]
              rfl
            have := hfull hne
            simp only [List.length_append, List.length_cons, List.length_nil]
            push_cast
            omega
  | remove identifier =>
    show ((FeedManager.removePodcast identifier s).2).indexInvariant
    unfold FeedManager.removePodcast
    cases hf : FeedManager.findSubscriptionIndex identifier s.subs with
    | none => exact ⟨hempty, hfull⟩
    | some i =>
      simp only
      constructor
      · intro h
        exact (ensureValidIndex_mem _ _).1 h
      · intro h
        exact (ensureValidIndex_mem _ _).2 h
  | next =>
    show ((FeedManager.nextPodcast s).2).indexInvariant
    unfold FeedManager.nextPodcast
    by_cases h : s.subs = []
    · rw [if_pos h]; exact ⟨hempty, hfull⟩
    · rw [if_neg h]
      have hlen : 0 < s.subs.length := List.length_pos.mpr h
      refine ⟨fun hc => absurd hc h, fun _ => ?_⟩
      have hmod := Nat.mod_lt (FeedManager.toSizeT (s.currentIndex + 1)) hlen
      have hcast : ((FeedManager.toSizeT (s.currentIndex + 1) % s.subs.length : Nat) : Int) <
          (s.subs.length : Int) := by exact_mod_cast hmod
      exact ⟨Int.ofNat_nonneg _, hcast⟩
  | previous =>
    show ((FeedManager.previousPodcast s).2).indexInvariant
    unfold FeedManager.previousPodcast
    by_cases h : s.subs = []
    · rw [if_pos h]; exact ⟨hempty, hfull⟩
    · rw [if_neg h]
      have hlen : 0 < s.subs.length := List.length_pos.mpr h
      refine ⟨fun hc => absurd hc h, fun _ => ?_⟩
      have hmod := Nat.mod_lt ((FeedManager.toSizeT (s.currentIndex - 1) + s.subs.length) % (2 ^ 64)) hlen
      have hcast : (((FeedManager.toSizeT (s.currentIndex - 1) + s.subs.length) % (2 ^ 64) % s.subs.length : Nat) : Int) <
          (s.subs.length : Int) := by exact_mod_cast hmod
      exact ⟨Int.ofNat_nonneg _, hcast⟩
  | select identifier =>
    show ((FeedManager.selectPodcast identifier s).2).indexInvariant
    unfold FeedManager.selectPodcast
    cases hf : FeedManager.findSubscriptionIndex identifier s.subs with
    | none => exact ⟨hempty, hfull⟩
    | some i =>
      have hi : ∀ (l : List Subscription) (j : Nat),
          FeedManager.findSubscriptionIndex identifier l = some j → j < l.length := by
        intro l
        induction l with
        | nil => intro j hj; exact absurd hj (by simp [FeedManager.findSubscriptionIndex])
        | cons a rest ih =>
          intro j hj
          unfold FeedManager.findSubscriptionIndex at hj
          by_cases hc : a.name = identifier ∨ a.feedUrl = identifier ∨ a.id = identifier
          · rw [if_pos hc] at hj
            injection hj with hj
            rw [← hj]
            simp
          · rw [if_neg hc] at hj
            cases hr : FeedManager.findSubscriptionIndex identifier rest with
            | none => rw [hr] at hj; exact absurd hj (by simp)
            | some k =>
              rw [hr] at hj
              simp only [Option.map_some'] at hj
              injection hj with hj
              have := ih k hr
              simp only [List.length_cons]
              omega
      have hlt := hi s.subs i hf
      have hcast : ((i : Nat) : Int) < (s.subs.length : Int) := by exact_mod_cast hlt
      refine ⟨fun hc => ?_, fun _ => ?_⟩
      · rw [hc] at hlt
        exact absurd hlt (by simp)
      · exact ⟨Int.ofNat_nonneg _, hcast⟩

/-- C9: starting from any state satisfying the index invariant (current
index 0 on an empty list, in [0, n-1] on an n-item list), any sequence of
addPodcast / removePodcast / nextPodcast / previousPodcast / selectPodcast
operations preserves it; in particular next/previous sequences on a 3-item
list keep the index in [0, 2]. -/
theorem c9_index_invariant_preserved (s : FMState) (ops : List FMOp) :
    s.indexInvariant → (ops.foldl FMState.applyOp s).indexInvariant := by
  induction ops generalizing s with
  | nil => exact id
  | cons op rest ih =>
    intro h
    exact ih _ (invariant_applyOp s op h)

/-- A concrete 3-item subscription state. -/
def demo3 : FMState :=
  ⟨[Subscription.construct "a" "u1" "" 0, Subscription.construct "b" "u2" "" 0,
    Subscription.construct "c" "u3" "" 0], 0⟩

/-- Witness for C9: a navigation sequence on the 3-item state lands on a
state whose index is inside [0, 2]. -/
theorem c9_index_invariant_preserved_witness :
    (([FMOp.previous, FMOp.next, FMOp.previous, FMOp.previous].foldl
      FMState.applyOp demo3)).indexInvariant := by
  apply c9_index_invariant_preserved
  constructor
  · intro h
    exact absurd h (by simp [demo3])
  · intro _
    simp [demo3]

/-! ## C10: addPodcast guards and uniqueness of names and URLs -/

/-- States reachable from the empty manager through addPodcast and
removePodcast. -/
inductive ReachableAR : FMState → Prop
  | empty : ReachableAR ⟨[], 0⟩
  | addStep (s : FMState) (name feedUrl description : String) (now : Int) :
      ReachableAR s → ReachableAR (FeedManager.addPodcast name feedUrl description now s).2
  | removeStep (s : FMState) (identifier : String) :
      ReachableAR s → ReachableAR (FeedManager.removePodcast identifier s).2

/-- Pairwise distinct names and feed URLs. -/
def distinctSubs (subs : List Subscription) : Prop :=
  subs.Pairwise (fun a b => a.name ≠ b.name ∧ a.feedUrl ≠ b.feedUrl)

/-- C10: addPodcast returns false and leaves the state unchanged on an
empty name, an empty URL, or a duplicate of either; consequently every
state reachable through addPodcast and removePodcast from the empty list
has pairwise distinct names and pairwise distinct feed URLs. -/
theorem c10_add_guards_and_uniqueness :
    (∀ (s : FMState) (name feedUrl description : String) (now : Int),
      (name = "" ∨ feedUrl = "" ∨
        s.subs.any (fun sub => sub.feedUrl = feedUrl || sub.name = name) = true) →
      FeedManager.addPodcast name feedUrl description now s = (false, s)) ∧
    (∀ s, ReachableAR s → distinctSubs s.subs) := by
  constructor
  · intro s name feedUrl description now h
    unfold FeedManager.addPodcast
    by_cases h1 : name = "" ∨ feedUrl = ""
    · rw [if_pos h1]
    · rw [if_neg h1]
      have h2 : s.subs.any (fun sub => sub.feedUrl = feedUrl || sub.name = name) = true := by
        rcases h with h | h | h
        · exact absurd (Or.inl h) h1
        · exact absurd (Or.inr h) h1
        · exact h
      rw [if_pos h2]
  · intro s hs
    induction hs with
    | empty => exact List.Pairwise.nil
    | addStep s name feedUrl description now _ ih =>
      unfold FeedManager.addPodcast
      by_cases h1 : name = "" ∨ feedUrl = ""
      · rw [if_pos h1]; exact ih
      · rw [if_neg h1]
        by_cases h2 : s.subs.any (fun sub => sub.feedUrl = feedUrl || sub.name = name) = true
        · rw [if_pos h2]; exact ih
        · rw [if_neg h2]
          show distinctSubs (s.subs ++ [Subscription.construct name feedUrl description now])
          unfold distinctSubs at ih ⊢
          refine List.pairwise_append.mpr ⟨ih, List.pairwise_singleton _ _, ?_⟩
          intro a ha b hb
          have hb2 : b = Subscription.construct name feedUrl description now := by
            simpa using hb
          subst hb2
          have hone : (a.feedUrl = feedUrl || a.name = name) = false := by
            by_contra hc
            apply h2
            rw [List.any_eq_true]
            refine ⟨a, ha, ?_⟩
            revert hc
            cases hb : (a.feedUrl = feedUrl || a.name = name) <;> simp
          simp only [Bool.or_eq_false_iff, decide_eq_false_iff_not] at hone
          exact ⟨hone.2, hone.1⟩
    | removeStep s identifier _ ih =>
      unfold FeedManager.removePodcast
      cases hf : FeedManager.findSubscriptionIndex identifier s.subs with
      | none => exact ih
      | some i =>
        show distinctSubs (s.subs.eraseIdx i)
        unfold distinctSubs at ih ⊢
        exact List.Pairwise.sublist (List.eraseIdx_sublist _ i) ih

/-- Witness for C10: an empty name is rejected on a concrete state, and a
concrete state reached by two adds and one remove has distinct names and
URLs. -/
theorem c10_add_guards_and_uniqueness_witness :
    FeedManager.addPodcast "" "u9" "d" 7 demo3 = (false, demo3) ∧
    distinctSubs ((FeedManager.removePodcast "a"
      (FeedManager.addPodcast "b" "u2" "" 1
        (FeedManager.addPodcast "a" "u1" "" 0 ⟨[], 0⟩).2).2).2).subs := by
  constructor
  · exact c10_add_guards_and_uniqueness.1 demo3 "" "u9" "d" 7 (Or.inl rfl)
  · exact c10_add_guards_and_uniqueness.2 _
      (ReachableAR.removeStep _ "a"
        (ReachableAR.addStep _ "b" "u2" "" 1
          (ReachableAR.addStep _ "a" "u1" "" 0 ReachableAR.empty)))

end Podradio
